import Mathlib

/-!
Verification of the directory-comparison engine of dircmp (src/dircmp.py).

The repository is a single Python file.  The comparison core consists of the
functions cmp_dir, append_change and cmp_prop plus the process-wide counters
processed and total.  This file gives a shallow embedding of that core:

* the filesystem universe a run observes is an inductive tree FSTree: each node
  carries the data the Python code reads from a path: its name, its unresolved
  stat (item.stat with follow_symlinks set to False), its resolved stat
  (follow_symlinks True), the string of item.resolve(), item.is_mount(),
  item.is_dir() (which follows symlinks), and the result of listing it with
  iterdir (either the exception class name or the child nodes);
* the shared mutable state (changes list, the counters, printed safety notices)
  is a record St threaded through the recursion;
* Python's recursion is embedded with an explicit fuel parameter that is spent
  one unit per nested cmp_dir call; running out of fuel aborts the whole walk
  (none), which mirrors an uncaught exception unwinding out of cmp_dir.

Machine-level notes: st_mtime is a float in Python compared only for exact
equality and printed; it is embedded as an integer timestamp, which preserves
the exact-equality semantics.  os.sep is "/".  A real directory listing never
repeats a name; Python's dict comprehension collapses repeated keys, which the
embedding reproduces with dictInsert/dictOfItems.
-/

namespace Dircmp

/-- Stat fields the code reads (st_mode, st_size, st_uid, st_gid, st_mtime). -/
structure FileStat where
  st_mode : Nat
  st_size : Int
  st_uid : Int
  st_gid : Int
  st_mtime : Int
deriving DecidableEq, Repr

/-- Mode-bit tests from Python's stat module: S_IFMT masks with 0o170000. -/
def S_ISDIR (m : Nat) : Bool := m &&& 0o170000 == 0o040000

/-- Symlink test on the format bits of st_mode. -/
def S_ISLNK (m : Nat) : Bool := m &&& 0o170000 == 0o120000

/-- FIFO test on the format bits of st_mode. -/
def S_ISFIFO (m : Nat) : Bool := m &&& 0o170000 == 0o010000

/-- Block-device test on the format bits of st_mode. -/
def S_ISBLK (m : Nat) : Bool := m &&& 0o170000 == 0o060000

/-- Character-device test on the format bits of st_mode. -/
def S_ISCHR (m : Nat) : Bool := m &&& 0o170000 == 0o020000

/-- Socket test on the format bits of st_mode. -/
def S_ISSOCK (m : Nat) : Bool := m &&& 0o170000 == 0o140000

/-- One filesystem object as the walk can observe it.  Fields, in order:
name; lstat (stat with follow_symlinks False); rstat (stat with
follow_symlinks True); the string of item.resolve(); item.is_mount();
item.is_dir() (resolving); the iterdir outcome (some exception-class-name when
listing raises, none when it succeeds); the children iterdir yields. -/
inductive FSTree where
  | node (name : String) (lstat rstat : FileStat) (resolvedPath : String)
         (isMount isDirR : Bool) (listingEx : Option String)
         (children : List FSTree)

/-- Name of a node. -/
def nameOf : FSTree → String
  | .node n _ _ _ _ _ _ _ => n

/-- Unresolved stat of a node. -/
def lstatOf : FSTree → FileStat
  | .node _ l _ _ _ _ _ _ => l

/-- Resolved stat of a node. -/
def rstatOf : FSTree → FileStat
  | .node _ _ r _ _ _ _ _ => r

/-- String of item.resolve() for a node. -/
def resolvedPathOf : FSTree → String
  | .node _ _ _ p _ _ _ _ => p

/-- Result of item.is_mount() for a node. -/
def isMountOf : FSTree → Bool
  | .node _ _ _ _ m _ _ _ => m

/-- Result of item.is_dir() (which follows symlinks) for a node. -/
def isDirROf : FSTree → Bool
  | .node _ _ _ _ _ d _ _ => d

/-- Exception class name raised by iterdir, if listing the node fails. -/
def listingOf : FSTree → Option String
  | .node _ _ _ _ _ _ e _ => e

/-- Children produced by iterdir when listing succeeds. -/
def childrenOf : FSTree → List FSTree
  | .node _ _ _ _ _ _ _ c => c

/-- Path of a child entry: parent path, os.sep, name. -/
def childPath (p n : String) : String := p ++ "/" ++ n

/-- Code-point prefix test on char lists (Python str.startswith). -/
def listStarts : List Char → List Char → Bool
  | [], _ => true
  | _ :: _, [] => false
  | c :: cs, d :: ds => c == d && listStarts cs ds

/-- Python s.startswith(pre). -/
def startsWithStr (s pre : String) : Bool := listStarts pre.data s.data

/-- Code-point-wise string ordering used by sorted() on same-directory paths. -/
def strLeAux : List Char → List Char → Bool
  | [], _ => true
  | _ :: _, [] => false
  | a :: xs, b :: ys =>
      if a.val < b.val then true else if b.val < a.val then false else strLeAux xs ys

/-- Name ordering: sorting children of one directory by full path equals
sorting them by name, since the parent prefix is shared. -/
def nameLe (a b : String) : Bool := strLeAux a.data b.data

/-- Stable insertion of a node into a name-sorted list. -/
def insertSorted (x : FSTree) : List FSTree → List FSTree
  | [] => [x]
  | y :: ys => if nameLe (nameOf x) (nameOf y) then x :: y :: ys else y :: insertSorted x ys

/-- Python sorted(dir.iterdir()): a stable sort of the listing by name. -/
def sortByName (l : List FSTree) : List FSTree := l.foldr insertSorted []

/-- Python dict insertion: overwriting an existing key keeps its position,
a fresh key is appended (insertion order). -/
def dictInsert (m : List (String × FSTree)) (key : String) (v : FSTree) :
    List (String × FSTree) :=
  if m.any (fun p => p.1 == key) then
    m.map (fun p => if p.1 == key then (key, v) else p)
  else m ++ [(key, v)]

/-- The dict comprehension item_names_b building the name-to-entry map. -/
def dictOfItems (items : List FSTree) : List (String × FSTree) :=
  items.foldl (fun m x => dictInsert m (nameOf x) x) []

/-- Python f-string rendering of the optional exception class name
(None renders as the four characters None). -/
def optExStr : Option String → String
  | none => "None"
  | some s => s

/-- Values handed to cmp_prop: Python ints (sizes, ids, times, modes) and
bools (the S_IS* flag comparisons). -/
inductive PyVal where
  | int (i : Int)
  | bool (b : Bool)
deriving DecidableEq

/-- Python str() of a cmp_prop value as interpolated into the reason string. -/
def pyStr : PyVal → String
  | .int i => toString i
  | .bool b => if b then "True" else "False"

/-- The mutable state the walk threads: the changes list of the run, the
process-wide counters processed and total, and the safety notices printed for
refused symlinks. -/
structure St where
  changes : List (String × String)
  processed : Nat
  total : Nat
  notices : List String
deriving DecidableEq, Repr

/-- append_change of the source: append (path, reason), suffixing os.sep to
the path when item_a.is_dir() holds. -/
def append_change (changes : List (String × String)) (path_a : String)
    (a_is_dir : Bool) (prop_name : String) : List (String × String) :=
  changes ++ [(if a_is_dir then path_a ++ "/" else path_a, prop_name)]

/-- cmp_prop of the source: on inequality append
prop_name(prop_a|prop_b) and report True, else report False. -/
def cmp_prop (prop_name : String) (path_a : String) (a_is_dir : Bool)
    (prop_a prop_b : PyVal) (changes : List (String × String)) :
    List (String × String) × Bool :=
  if prop_a ≠ prop_b then
    (append_change changes path_a a_is_dir
      (prop_name ++ "(" ++ pyStr prop_a ++ "|" ++ pyStr prop_b ++ ")"), true)
  else (changes, false)

/-- The pattern if cmp_prop(...): continue of the source: when the check
fired, stop with its changes; otherwise run the rest of the entry on them. -/
def step (check : List (String × String) × Bool)
    (k : List (String × String) → List (String × String)) : List (String × String) :=
  if check.2 then check.1 else k check.1

/-- Lines 200-207 of the source, after the mount-point handling: the four
special-file flag checks and the st_mode catch-all, each with the
if cmp_prop(...): continue pattern. -/
def modeChain (path_a : String) (a_is_dir : Bool) (sa sb : FileStat)
    (changes : List (String × String)) : List (String × String) :=
  step (cmp_prop "is_fifo" path_a a_is_dir (.bool (S_ISFIFO sa.st_mode)) (.bool (S_ISFIFO sb.st_mode)) changes) fun c4 =>
  step (cmp_prop "is_block_device" path_a a_is_dir (.bool (S_ISBLK sa.st_mode)) (.bool (S_ISBLK sb.st_mode)) c4) fun c5 =>
  step (cmp_prop "is_char_device" path_a a_is_dir (.bool (S_ISCHR sa.st_mode)) (.bool (S_ISCHR sb.st_mode)) c5) fun c6 =>
  step (cmp_prop "is_socket" path_a a_is_dir (.bool (S_ISSOCK sa.st_mode)) (.bool (S_ISSOCK sb.st_mode)) c6) fun c7 =>
  step (cmp_prop "stat.st_mode" path_a a_is_dir (.int sa.st_mode) (.int sb.st_mode) c7) fun c8 => c8

/-- The straight-line run of per-entry checks of cmp_dir, lines 181-207 of the
source: st_size (skipped when side A classified as a directory), st_uid,
st_gid, st_mtime, the mount-point test (recording is_mount and continuing when
only side A is a mount), then the flag and mode checks of modeChain.
Each firing check continues to the next entry. -/
def fieldChain (skip_size : Bool) (path_a : String) (a_is_dir : Bool)
    (sa sb : FileStat) (mount_a mount_b : Bool)
    (changes : List (String × String)) : List (String × String) :=
  step (if skip_size then (changes, false)
        else cmp_prop "stat.st_size" path_a a_is_dir (.int sa.st_size) (.int sb.st_size) changes) fun c0 =>
  step (cmp_prop "stat.st_uid" path_a a_is_dir (.int sa.st_uid) (.int sb.st_uid) c0) fun c1 =>
  step (cmp_prop "stat.st_gid" path_a a_is_dir (.int sa.st_gid) (.int sb.st_gid) c1) fun c2 =>
  step (cmp_prop "stat.st_mtime" path_a a_is_dir (.int sa.st_mtime) (.int sb.st_mtime) c2) fun c3 =>
  if mount_a && !mount_b then append_change c3 path_a a_is_dir "is_mount" else
  modeChain path_a a_is_dir sa sb c3

/-- The safety notice printed when a symlink's resolution is refused. -/
def refuseMsg (p : String) : String :=
  "Absolute symlink at " ++ p ++ " points outside of searched filesystem, refusing to follow"

/-- Lines 171-207 of the source, after the symlink block, with the possibly
re-resolved stats: the subdirectory handling (record is_dir on a type clash;
recurse through rc when recursive is set), then the field checks, with the
size check only on the non-directory path. -/
def afterLinksGo (rc : FSTree → FSTree → String → String → St → Option St)
    (item_a item_b : FSTree) (stat_a stat_b : FileStat) (pathA pathB : String)
    (recursive : Bool) (st : St) : Option St :=
  let pA := childPath pathA (nameOf item_a)
  let pB := childPath pathB (nameOf item_b)
  if S_ISDIR stat_a.st_mode then
    if !(S_ISDIR stat_b.st_mode) then
      some { st with changes := append_change st.changes pA (isDirROf item_a) "is_dir" }
    else
      match (if recursive then rc item_a item_b pA pB st else some st) with
      | none => none
      | some st1 =>
          let chs := fieldChain true pA (isDirROf item_a) stat_a stat_b
            (isMountOf item_a) (isMountOf item_b) st1.changes
          some { st1 with changes := chs }
  else
    let chs := fieldChain false pA (isDirROf item_a) stat_a stat_b
      (isMountOf item_a) (isMountOf item_b) st.changes
    some { st with changes := chs }

/-- Lines 153-207 of the source: the body of the matching loop for one matched
pair, beginning with the symlink handling: a one-sided symlink on side A
records is_symlink and continues; a two-sided symlink under follow_symlinks
either refuses (when item_a.resolve() does not start with the path of dir_a,
the directory currently being compared) keeping the unresolved stats, or
re-stats both sides with resolution. -/
def processOneGo (rc : FSTree → FSTree → String → String → St → Option St)
    (item_a item_b : FSTree) (pathA pathB : String)
    (recursive follow_symlinks : Bool) (st : St) : Option St :=
  let stat_a := lstatOf item_a
  let stat_b := lstatOf item_b
  let pA := childPath pathA (nameOf item_a)
  if S_ISLNK stat_a.st_mode then
    if !(S_ISLNK stat_b.st_mode) then
      some { st with changes := append_change st.changes pA (isDirROf item_a) "is_symlink" }
    else if follow_symlinks then
      if !(startsWithStr (resolvedPathOf item_a) pathA) then
        afterLinksGo rc item_a item_b stat_a stat_b pathA pathB recursive
          { st with notices := st.notices ++ [refuseMsg pA] }
      else
        afterLinksGo rc item_a item_b (rstatOf item_a) (rstatOf item_b) pathA pathB recursive st
    else
      afterLinksGo rc item_a item_b stat_a stat_b pathA pathB recursive st
  else
    afterLinksGo rc item_a item_b stat_a stat_b pathA pathB recursive st

/-- Lines 144-207 of the source: the loop over the sorted side-A items.
Each iteration increments processed; an unmatched name records deleted; a
matched name is claimed (deleted from the B-map) and compared.  The final
B-map is returned for the missing pass. -/
def processItemsGo (rc : FSTree → FSTree → String → String → St → Option St)
    (pathA pathB : String) (recursive follow_symlinks : Bool) :
    List FSTree → List (String × FSTree) → St → Option (St × List (String × FSTree))
  | [], names_b, st => some (st, names_b)
  | item_a :: rest, names_b, st =>
    let st1 : St := { st with processed := st.processed + 1 }
    match names_b.find? (fun p => p.1 == nameOf item_a) with
    | none =>
      let chs := append_change st1.changes (childPath pathA (nameOf item_a)) (isDirROf item_a) "deleted"
      let st2 : St := { st1 with changes := chs }
      processItemsGo rc pathA pathB recursive follow_symlinks rest names_b st2
    | some pr =>
      let names_b2 := names_b.eraseP (fun p => p.1 == nameOf item_a)
      match processOneGo rc item_a pr.2 pathA pathB recursive follow_symlinks st1 with
      | none => none
      | some st2 => processItemsGo rc pathA pathB recursive follow_symlinks rest names_b2 st2

/-- cmp_dir of the source (lines 104-213), with explicit fuel standing for the
recursion depth Python's call stack allows; exhausted fuel (none) models the
stack-overflow abort of the whole walk.  The listing outcomes are compared
first: distinct outcomes record one terminal difference for the directory
itself; equal outcomes proceed (a failed side degrades to an empty listing).
Then total grows by the side-A count, the loop runs, and whatever survives in
the B-map is appended as (missing, path) records, exactly as line 211 writes
them. -/
def cmp_dirF : Nat → FSTree → FSTree → String → String → Bool → Bool → Bool → St → Option St
  | 0, _, _, _, _, _, _, _, _ => none
  | fuel + 1, dir_a, dir_b, pathA, pathB, recursive, external, follow_symlinks, st =>
    let ex_a := listingOf dir_a
    let ex_b := listingOf dir_b
    let items_a := match ex_a with
      | none => sortByName (childrenOf dir_a)
      | some _ => []
    let items_b := match ex_b with
      | none => sortByName (childrenOf dir_b)
      | some _ => []
    if ex_a ≠ ex_b then
      let chs := append_change st.changes pathA (isDirROf dir_a) (optExStr ex_a ++ " & " ++ optExStr ex_b)
      some { st with changes := chs }
    else
      let names_b := dictOfItems items_b
      let st1 : St := { st with total := st.total + items_a.length }
      match processItemsGo
          (fun a b pa pb s => cmp_dirF fuel a b pa pb recursive external follow_symlinks s)
          pathA pathB recursive follow_symlinks items_a names_b st1 with
      | none => none
      | some pr =>
        let st2 := pr.1
        let chs := st2.changes ++ pr.2.map (fun p => ("missing", childPath pathB (nameOf p.2)))
        some { st2 with changes := chs }

/-- Well-formedness of a tree to the given depth: every listing has pairwise
distinct entry names (true of every real directory), and the tree is no
deeper than the fuel.  Python dict key collapsing is vacuous on such trees. -/
def namesUnique : List String → Bool
  | [] => true
  | n :: rest => !(rest.contains n) && namesUnique rest

/-- Depth-bounded well-formedness of a tree (see namesUnique). -/
def wfB : Nat → FSTree → Bool
  | 0, _ => false
  | fuel + 1, t =>
    namesUnique ((childrenOf t).map nameOf) && (childrenOf t).all (fun c => wfB fuel c)

/-- First entry of a named-check list whose two values differ.  Stated after
the spec's wording of the comparator: return the first mismatching field per
a fixed precedence, or no difference. -/
def firstDiff : List (String × PyVal × PyVal) → Option (String × PyVal × PyVal)
  | [] => none
  | e :: rest => if e.2.1 ≠ e.2.2 then some e else firstDiff rest

/-- The precedence list the spec names before the mount-point gate: size
(regular files only), owning user id, owning group id, modification time. -/
def primaryChecks (skip_size : Bool) (sa sb : FileStat) : List (String × PyVal × PyVal) :=
  (if skip_size then [] else [("stat.st_size", PyVal.int sa.st_size, PyVal.int sb.st_size)]) ++
  [("stat.st_uid", PyVal.int sa.st_uid, PyVal.int sb.st_uid),
   ("stat.st_gid", PyVal.int sa.st_gid, PyVal.int sb.st_gid),
   ("stat.st_mtime", PyVal.int sa.st_mtime, PyVal.int sb.st_mtime)]

/-- The precedence list the spec names after the mount-point gate: the four
special-file subtype flags, then the full mode bits. -/
def modeChecks (sa sb : FileStat) : List (String × PyVal × PyVal) :=
  [("is_fifo", PyVal.bool (S_ISFIFO sa.st_mode), PyVal.bool (S_ISFIFO sb.st_mode)),
   ("is_block_device", PyVal.bool (S_ISBLK sa.st_mode), PyVal.bool (S_ISBLK sb.st_mode)),
   ("is_char_device", PyVal.bool (S_ISCHR sa.st_mode), PyVal.bool (S_ISCHR sb.st_mode)),
   ("is_socket", PyVal.bool (S_ISSOCK sa.st_mode), PyVal.bool (S_ISSOCK sb.st_mode)),
   ("stat.st_mode", PyVal.int sa.st_mode, PyVal.int sb.st_mode)]

/-- Rendering of a field mismatch as its Difference record,
field(valueA|valueB), at the entry's path. -/
def fmtDiff (path_a : String) (a_is_dir : Bool) (e : String × PyVal × PyVal) :
    String × String :=
  (if a_is_dir then path_a ++ "/" else path_a,
   e.1 ++ "(" ++ pyStr e.2.1 ++ "|" ++ pyStr e.2.2 ++ ")")

/-- The records the spec's comparator contract predicts for one entry: the
first mismatch of the primary precedence list, else the one-sided mount
record, else the first mismatch of the flag/mode list, else nothing. -/
def specFirstMismatch (skip_size : Bool) (path_a : String) (a_is_dir : Bool)
    (sa sb : FileStat) (mount_a mount_b : Bool) : List (String × String) :=
  match firstDiff (primaryChecks skip_size sa sb) with
  | some e => [fmtDiff path_a a_is_dir e]
  | none =>
    if mount_a && !mount_b then [(if a_is_dir then path_a ++ "/" else path_a, "is_mount")]
    else
      match firstDiff (modeChecks sa sb) with
      | some e => [fmtDiff path_a a_is_dir e]
      | none => []

/-- Stat snapshot of an ordinary regular file (mode 0o100644). -/
def regStat (sz uid gid mt : Int) : FileStat := ⟨0o100644, sz, uid, gid, mt⟩

/-- Stat snapshot of an ordinary directory (mode 0o040755). -/
def dirStat (sz : Int) : FileStat := ⟨0o040755, sz, 0, 0, 100⟩

/-- Stat snapshot of a symlink (mode 0o120777) with a chosen uid. -/
def lnkStat (uid : Int) : FileStat := ⟨0o120777, 9, uid, 0, 100⟩

/-- Concrete regular-file node of the given name and size. -/
def fileNode (n : String) (sz : Int) : FSTree :=
  .node n (regStat sz 0 0 100) (regStat sz 0 0 100) "" false false none []

/-- Concrete directory node of the given name and children. -/
def dirNode (n : String) (cs : List FSTree) : FSTree :=
  .node n (dirStat 4096) (dirStat 4096) "" false true none cs

/-- Concrete mount-point directory node of the given name and children. -/
def mountNode (n : String) (cs : List FSTree) : FSTree :=
  .node n (dirStat 4096) (dirStat 4096) "" true true none cs

/-- Concrete directory node whose listing raises the named exception. -/
def failNode (n ex : String) : FSTree :=
  .node n (dirStat 4096) (dirStat 4096) "" false true (some ex) []

/-- Concrete symlink node: resolves to the given path, with chosen unresolved
and resolved uids so that following is observable. -/
def linkNode (n target : String) (uidL uidR : Int) : FSTree :=
  .node n (lnkStat uidL) (regStat 7 uidR 0 100) target false false none []

/-- The all-zero initial state of one run of the tool. -/
def st0 : St := ⟨[], 0, 0, []⟩

end Dircmp

namespace Dircmp

theorem step_cmp_prop (n p : String) (d : Bool) (a b : PyVal)
    (chs : List (String × String)) (k : List (String × String) → List (String × String)) :
    step (cmp_prop n p d a b chs) k =
      if a ≠ b then append_change chs p d (n ++ "(" ++ pyStr a ++ "|" ++ pyStr b ++ ")") else k chs := by
  by_cases h : a = b <;> simp [cmp_prop, step, h]

theorem step_false (chs : List (String × String)) (k : List (String × String) → List (String × String)) :
    step (chs, false) k = k chs := rfl

theorem modeChain_spec (p : String) (d : Bool) (sa sb : FileStat) (chs : List (String × String)) :
    modeChain p d sa sb chs =
      chs ++ (match firstDiff (modeChecks sa sb) with
              | some e => [fmtDiff p d e]
              | none => []) := by
  by_cases h4 : PyVal.bool (S_ISFIFO sa.st_mode) = PyVal.bool (S_ISFIFO sb.st_mode) <;>
  by_cases h5 : PyVal.bool (S_ISBLK sa.st_mode) = PyVal.bool (S_ISBLK sb.st_mode) <;>
  by_cases h6 : PyVal.bool (S_ISCHR sa.st_mode) = PyVal.bool (S_ISCHR sb.st_mode) <;>
  by_cases h7 : PyVal.bool (S_ISSOCK sa.st_mode) = PyVal.bool (S_ISSOCK sb.st_mode) <;>
  by_cases h8 : PyVal.int sa.st_mode = PyVal.int sb.st_mode <;>
  simp [modeChain, modeChecks, firstDiff, step_cmp_prop, h4, h5, h6, h7, h8, fmtDiff, append_change]

theorem fieldChain_spec (skip_size : Bool) (p : String) (d : Bool) (sa sb : FileStat)
    (mA mB : Bool) (chs : List (String × String)) :
    fieldChain skip_size p d sa sb mA mB chs = chs ++ specFirstMismatch skip_size p d sa sb mA mB := by
  cases skip_size <;>
  by_cases h0 : PyVal.int sa.st_size = PyVal.int sb.st_size <;>
  by_cases h1 : PyVal.int sa.st_uid = PyVal.int sb.st_uid <;>
  by_cases h2 : PyVal.int sa.st_gid = PyVal.int sb.st_gid <;>
  by_cases h3 : PyVal.int sa.st_mtime = PyVal.int sb.st_mtime <;>
  cases hm : mA && !mB <;>
  simp [fieldChain, specFirstMismatch, primaryChecks, firstDiff, step_cmp_prop, step_false,
    modeChain_spec, h0, h1, h2, h3, hm, fmtDiff, append_change, List.append_assoc]


theorem specFirstMismatch_shape (skip : Bool) (p : String) (d : Bool) (sa sb : FileStat) (mA mB : Bool) :
    ∀ c ∈ specFirstMismatch skip p d sa sb mA mB,
      c.2 = "is_mount" ∨ ∃ f x y, c.2 = f ++ "(" ++ x ++ "|" ++ y ++ ")" := by
  intro c hc
  unfold specFirstMismatch at hc
  cases h1 : firstDiff (primaryChecks skip sa sb) with
  | some e =>
    rw [h1] at hc
    simp only [List.mem_singleton] at hc
    subst hc
    exact Or.inr ⟨e.1, pyStr e.2.1, pyStr e.2.2, rfl⟩
  | none =>
    rw [h1] at hc
    by_cases hm : (mA && !mB) = true
    · simp only [hm, if_true, List.mem_singleton] at hc
      subst hc
      exact Or.inl rfl
    · simp only [hm, if_false, Bool.false_eq_true] at hc
      cases h2 : firstDiff (modeChecks sa sb) with
      | some e =>
        rw [h2] at hc
        simp only [List.mem_singleton] at hc
        subst hc
        exact Or.inr ⟨e.1, pyStr e.2.1, pyStr e.2.2, rfl⟩
      | none =>
        rw [h2] at hc
        simp at hc

theorem paren_mem_reason (f x y : String) : '(' ∈ (f ++ "(" ++ x ++ "|" ++ y ++ ")").data := by
  have h : '(' ∈ "(".data := by decide
  simp only [String.data_append, List.mem_append]
  tauto

theorem reason_ne_is_symlink (f x y : String) : f ++ "(" ++ x ++ "|" ++ y ++ ")" ≠ "is_symlink" := by
  intro he
  have hp := paren_mem_reason f x y
  rw [he] at hp
  exact absurd hp (by decide)

theorem fieldChain_size_irrel (p : String) (d : Bool) (sa sb : FileStat) (mA mB : Bool)
    (chs : List (String × String)) (z w : Int) :
    fieldChain true p d sa sb mA mB chs =
      fieldChain true p d { sa with st_size := z } { sb with st_size := w } mA mB chs := rfl


theorem claim_C2_theorem (rc : FSTree → FSTree → String → String → St → Option St)
    (a b : FSTree) (pa pb : String) (recursive : Bool) (st : St)
    (h1 : S_ISLNK (lstatOf a).st_mode = true) (h2 : S_ISLNK (lstatOf b).st_mode = true) :
    processOneGo rc a b pa pb recursive true st =
      if startsWithStr (resolvedPathOf a) pa then
        afterLinksGo rc a b (rstatOf a) (rstatOf b) pa pb recursive st
      else
        afterLinksGo rc a b (lstatOf a) (lstatOf b) pa pb recursive
          { st with notices := st.notices ++ [refuseMsg (childPath pa (nameOf a))] } := by
  by_cases hs : startsWithStr (resolvedPathOf a) pa <;>
    simp [processOneGo, h1, h2, hs]

theorem claim_C3_theorem (fuel : Nat) (a b : FSTree) (pa pb : String)
    (recursive external follow_symlinks : Bool) (st : St) :
    (∀ exn, listingOf a = some exn → listingOf b = some exn →
      cmp_dirF (fuel + 1) a b pa pb recursive external follow_symlinks st = some st) ∧
    (listingOf a ≠ listingOf b →
      cmp_dirF (fuel + 1) a b pa pb recursive external follow_symlinks st =
        some { st with changes := append_change st.changes pa (isDirROf a) (optExStr (listingOf a) ++ " & " ++ optExStr (listingOf b)) }) := by
  constructor
  · intro exn ha hb
    simp [cmp_dirF, ha, hb, dictOfItems, processItemsGo]
  · intro hne
    simp [cmp_dirF, hne]

theorem claim_C4_theorem (skip_size : Bool) (p : String) (d : Bool) (sa sb : FileStat)
    (mA mB : Bool) (chs : List (String × String)) :
    fieldChain skip_size p d sa sb mA mB chs = chs ++ specFirstMismatch skip_size p d sa sb mA mB ∧
    (specFirstMismatch skip_size p d sa sb mA mB).length ≤ 1 := by
  refine ⟨fieldChain_spec skip_size p d sa sb mA mB chs, ?_⟩
  unfold specFirstMismatch
  cases h1 : firstDiff (primaryChecks skip_size sa sb) with
  | some e => simp
  | none =>
    by_cases hm : (mA && !mB) = true
    · simp [hm]
    · simp only [hm, Bool.false_eq_true, if_false]
      cases h2 : firstDiff (modeChecks sa sb) with
      | some e => simp
      | none => simp

theorem claim_C5_theorem (rc : FSTree → FSTree → String → String → St → Option St)
    (a b : FSTree) (sa sb : FileStat) (pa pb : String) (recursive : Bool) (st : St) (z w : Int) :
    (S_ISDIR sa.st_mode = true →
      afterLinksGo rc a b sa sb pa pb recursive st =
        afterLinksGo rc a b { sa with st_size := z } { sb with st_size := w } pa pb recursive st) ∧
    (S_ISDIR sa.st_mode = false → sa.st_size ≠ sb.st_size →
      afterLinksGo rc a b sa sb pa pb recursive st =
        some { st with changes := append_change st.changes (childPath pa (nameOf a)) (isDirROf a) ("stat.st_size(" ++ pyStr (PyVal.int sa.st_size) ++ "|" ++ pyStr (PyVal.int sb.st_size) ++ ")") }) := by
  constructor
  · intro hd
    have hd2 : S_ISDIR (FileStat.st_mode { sa with st_size := z }) = true := hd
    simp only [afterLinksGo, hd, hd2, if_true]
    rfl
  · intro hd hsz
    simp only [afterLinksGo, hd, Bool.false_eq_true, if_false]
    rw [fieldChain_spec]
    simp [specFirstMismatch, primaryChecks, firstDiff, hsz, fmtDiff, append_change]

theorem claim_C6_theorem (rc : FSTree → FSTree → String → String → St → Option St)
    (a b : FSTree) (pa pb : String) (recursive fol : Bool) (st : St) :
    (S_ISLNK (lstatOf a).st_mode = true → S_ISLNK (lstatOf b).st_mode = false →
      processOneGo rc a b pa pb recursive fol st =
        some { st with changes := append_change st.changes (childPath pa (nameOf a)) (isDirROf a) "is_symlink" }) ∧
    (S_ISLNK (lstatOf a).st_mode = false →
      ∀ st2, processOneGo rc a b pa pb false fol st = some st2 →
        ∀ c ∈ st2.changes, c ∈ st.changes ∨ c.2 ≠ "is_symlink") := by
  constructor
  · intro h1 h2
    simp [processOneGo, h1, h2]
  · intro h1 st2 hrun c hc
    simp only [processOneGo, h1, Bool.false_eq_true, if_false] at hrun
    by_cases hd : S_ISDIR (lstatOf a).st_mode = true
    · by_cases hd2 : S_ISDIR (lstatOf b).st_mode = true
      · simp only [afterLinksGo, hd, hd2, Bool.not_true, if_true, if_false,
          Bool.false_eq_true, Option.some.injEq] at hrun
        subst hrun
        rw [fieldChain_spec] at hc
        rcases List.mem_append.mp hc with hold | hnew
        · exact Or.inl hold
        · rcases specFirstMismatch_shape _ _ _ _ _ _ _ _ hnew with hmt | ⟨f, x, y, hf⟩
          · exact Or.inr (by rw [hmt]; decide)
          · exact Or.inr (by rw [hf]; exact reason_ne_is_symlink f x y)
      · have hd2f : S_ISDIR (lstatOf b).st_mode = false := by
          simpa using hd2
        simp only [afterLinksGo, hd, hd2f, Bool.not_false, if_true, Option.some.injEq] at hrun
        subst hrun
        simp only [append_change] at hc
        rcases List.mem_append.mp hc with hold | hnew
        · exact Or.inl hold
        · simp only [List.mem_singleton] at hnew
          subst hnew
          exact Or.inr (by show "is_dir" ≠ "is_symlink"; decide)
    · have hdf : S_ISDIR (lstatOf a).st_mode = false := by simpa using hd
      simp only [afterLinksGo, hdf, Bool.false_eq_true, if_false, Option.some.injEq] at hrun
      subst hrun
      rw [fieldChain_spec] at hc
      rcases List.mem_append.mp hc with hold | hnew
      · exact Or.inl hold
      · rcases specFirstMismatch_shape _ _ _ _ _ _ _ _ hnew with hmt | ⟨f, x, y, hf⟩
        · exact Or.inr (by rw [hmt]; decide)
        · exact Or.inr (by rw [hf]; exact reason_ne_is_symlink f x y)



theorem cmp_dirF_external_irrel : ∀ (fuel : Nat) (a b : FSTree) (pa pb : String)
    (recursive e1 e2 follow_symlinks : Bool) (st : St),
    cmp_dirF fuel a b pa pb recursive e1 follow_symlinks st =
      cmp_dirF fuel a b pa pb recursive e2 follow_symlinks st := by
  intro fuel
  induction fuel with
  | zero => intro a b pa pb r e1 e2 f st; rfl
  | succ n ih =>
    intro a b pa pb r e1 e2 f st
    have hfun : (fun x y px py s => cmp_dirF n x y px py r e1 f s) =
        (fun x y px py s => cmp_dirF n x y px py r e2 f s) := by
      funext x y px py s
      exact ih x y px py r e1 e2 f s
    simp only [cmp_dirF]
    rw [hfun]

theorem afterLinksGo_counters (rc : FSTree → FSTree → String → String → St → Option St)
    (hrc : ∀ x y qa qb s s2, rc x y qa qb s = some s2 →
      s.processed ≤ s2.processed ∧ s.total ≤ s2.total ∧
      s2.processed + s.total = s2.total + s.processed) :
    ∀ (a b : FSTree) (sa sb : FileStat) (qa qb : String) (r : Bool) (s s2 : St),
      afterLinksGo rc a b sa sb qa qb r s = some s2 →
      s.processed ≤ s2.processed ∧ s.total ≤ s2.total ∧
      s2.processed + s.total = s2.total + s.processed := by
  intro a b sa sb qa qb r s s2 h
  simp only [afterLinksGo] at h
  split at h
  · split at h
    · simp only [Option.some.injEq] at h
      subst h
      exact ⟨Nat.le_refl _, Nat.le_refl _, Nat.add_comm _ _⟩
    · split at h
      next heq => exact absurd h (by simp)
      next st1 heq =>
        simp only [Option.some.injEq] at h
        subst h
        have h1 : s.processed ≤ st1.processed ∧ s.total ≤ st1.total ∧
            st1.processed + s.total = st1.total + s.processed := by
          split at heq
          · exact hrc a b _ _ s st1 heq
          · simp only [Option.some.injEq] at heq
            subst heq
            exact ⟨Nat.le_refl _, Nat.le_refl _, Nat.add_comm _ _⟩
        exact ⟨h1.1, h1.2.1, h1.2.2⟩
  · simp only [Option.some.injEq] at h
    subst h
    exact ⟨Nat.le_refl _, Nat.le_refl _, Nat.add_comm _ _⟩

theorem processOneGo_counters (rc : FSTree → FSTree → String → String → St → Option St)
    (hrc : ∀ x y qa qb s s2, rc x y qa qb s = some s2 →
      s.processed ≤ s2.processed ∧ s.total ≤ s2.total ∧
      s2.processed + s.total = s2.total + s.processed) :
    ∀ (a b : FSTree) (qa qb : String) (r f : Bool) (s s2 : St),
      processOneGo rc a b qa qb r f s = some s2 →
      s.processed ≤ s2.processed ∧ s.total ≤ s2.total ∧
      s2.processed + s.total = s2.total + s.processed := by
  intro a b qa qb r f s s2 h
  simp only [processOneGo] at h
  split at h
  · split at h
    · simp only [Option.some.injEq] at h
      subst h
      exact ⟨Nat.le_refl _, Nat.le_refl _, Nat.add_comm _ _⟩
    · split at h
      · split at h
        · have hx := afterLinksGo_counters rc hrc a b _ _ qa qb r _ s2 h
          exact hx
        · have hx := afterLinksGo_counters rc hrc a b _ _ qa qb r _ s2 h
          exact hx
      · have hx := afterLinksGo_counters rc hrc a b _ _ qa qb r _ s2 h
        exact hx
  · have hx := afterLinksGo_counters rc hrc a b _ _ qa qb r _ s2 h
    exact hx

theorem processItemsGo_counters (rc : FSTree → FSTree → String → String → St → Option St)
    (hrc : ∀ x y qa qb s s2, rc x y qa qb s = some s2 →
      s.processed ≤ s2.processed ∧ s.total ≤ s2.total ∧
      s2.processed + s.total = s2.total + s.processed)
    (pa pb : String) (r f : Bool) :
    ∀ (items : List FSTree) (nb : List (String × FSTree)) (s s2 : St) (nb2 : List (String × FSTree)),
      processItemsGo rc pa pb r f items nb s = some (s2, nb2) →
      s.processed ≤ s2.processed ∧ s.total ≤ s2.total ∧
      s2.processed + s.total = s2.total + s.processed + items.length := by
  intro items
  induction items with
  | nil =>
    intro nb s s2 nb2 h
    simp only [processItemsGo, Option.some.injEq, Prod.mk.injEq] at h
    obtain ⟨rfl, rfl⟩ := h
    exact ⟨Nat.le_refl _, Nat.le_refl _, by simp [Nat.add_comm]⟩
  | cons x rest ih =>
    intro nb s s2 nb2 h
    simp only [processItemsGo] at h
    split at h
    · have hrest := ih nb _ s2 nb2 h
      have hrest2 : s.processed + 1 ≤ s2.processed ∧ s.total ≤ s2.total ∧
          s2.processed + s.total = s2.total + (s.processed + 1) + rest.length := hrest
      refine ⟨by omega, hrest2.2.1, ?_⟩
      rw [List.length_cons]
      omega
    · split at h
      next heq => exact absurd h (by simp)
      next stm heq =>
        have h1 := processOneGo_counters rc hrc x _ pa pb r f _ stm heq
        have h1b : s.processed + 1 ≤ stm.processed ∧ s.total ≤ stm.total ∧
            stm.processed + s.total = stm.total + (s.processed + 1) := h1
        have h2 := ih _ stm s2 nb2 h
        refine ⟨by omega, by omega, ?_⟩
        rw [List.length_cons]
        omega

theorem cmp_dirF_counters : ∀ (fuel : Nat) (a b : FSTree) (pa pb : String)
    (r e f : Bool) (st st2 : St),
    cmp_dirF fuel a b pa pb r e f st = some st2 →
    st.processed ≤ st2.processed ∧ st.total ≤ st2.total ∧
    st2.processed + st.total = st2.total + st.processed := by
  intro fuel
  induction fuel with
  | zero => intro a b pa pb r e f st st2 h; exact absurd h (by simp [cmp_dirF])
  | succ n ih =>
    intro a b pa pb r e f st st2 h
    simp only [cmp_dirF] at h
    split at h
    · simp only [Option.some.injEq] at h
      subst h
      exact ⟨Nat.le_refl _, Nat.le_refl _, Nat.add_comm _ _⟩
    · split at h
      next heq => exact absurd h (by simp)
      next pr heq =>
        have hl := processItemsGo_counters _
          (fun x y qa qb s s2 hh => ih x y qa qb r e f s s2 hh) pa pb r f _ _ _ _ _ heq
        simp only [Option.some.injEq] at h
        subst h
        revert hl
        generalize (match listingOf a with
          | none => sortByName (childrenOf a)
          | some _ => []).length = L
        intro hl
        have hl2 : st.processed ≤ pr.1.processed ∧ st.total + L ≤ pr.1.total ∧
            pr.1.processed + (st.total + L) = pr.1.total + st.processed + L := hl
        refine ⟨hl2.1, ?_, ?_⟩
        · show st.total ≤ pr.1.total
          omega
        · show pr.1.processed + st.total = pr.1.total + st.processed
          omega



theorem insertSorted_perm (x : FSTree) : ∀ l, List.Perm (insertSorted x l) (x :: l) := by
  intro l
  induction l with
  | nil => simp [insertSorted]
  | cons y ys ih =>
    simp only [insertSorted]
    split
    · exact List.Perm.refl _
    · exact (ih.cons y).trans (List.Perm.swap x y ys)

theorem sortByName_perm : ∀ l, List.Perm (sortByName l) l := by
  intro l
  induction l with
  | nil => exact List.Perm.refl _
  | cons x xs ih =>
    have h : sortByName (x :: xs) = insertSorted x (sortByName xs) := rfl
    rw [h]
    exact (insertSorted_perm x (sortByName xs)).trans (ih.cons x)

theorem namesUnique_iff (ns : List String) : namesUnique ns = true ↔ ns.Nodup := by
  induction ns with
  | nil => simp [namesUnique]
  | cons n rest ih =>
    simp [namesUnique, ih, List.nodup_cons, List.contains, List.elem_iff]

theorem sortByName_namesUnique (l : List FSTree) (h : namesUnique (l.map nameOf) = true) :
    namesUnique ((sortByName l).map nameOf) = true := by
  rw [namesUnique_iff] at h ⊢
  exact (((sortByName_perm l).map nameOf).nodup_iff).mpr h

theorem foldl_dictInsert : ∀ (items : List FSTree) (acc : List (String × FSTree)),
    namesUnique (items.map nameOf) = true →
    (∀ x ∈ items, ∀ p ∈ acc, p.1 ≠ nameOf x) →
    items.foldl (fun m x => dictInsert m (nameOf x) x) acc =
      acc ++ items.map (fun x => (nameOf x, x)) := by
  intro items
  induction items with
  | nil => intro acc _ _; simp
  | cons x rest ih =>
    intro acc hu hd
    have hu2 : namesUnique ((x :: rest).map nameOf) = true := hu
    simp only [List.map_cons, namesUnique, Bool.and_eq_true] at hu2
    obtain ⟨hx_bool, hnu⟩ := hu2
    have hx_notin : nameOf x ∉ rest.map nameOf := by
      simpa [List.contains, List.elem_iff] using hx_bool
    have hnotin : acc.any (fun p => p.1 == nameOf x) = false := by
      rw [List.any_eq_false]
      intro p hp
      simp only [beq_iff_eq]
      exact hd x (List.mem_cons_self x rest) p hp
    have hins : dictInsert acc (nameOf x) x = acc ++ [(nameOf x, x)] := by
      simp [dictInsert, hnotin]
    simp only [List.foldl_cons, hins]
    rw [ih (acc ++ [(nameOf x, x)]) hnu ?_]
    · simp
    · intro y hy p hp
      rcases List.mem_append.mp hp with h1 | h2
      · exact hd y (List.mem_cons_of_mem _ hy) p h1
      · simp only [List.mem_singleton] at h2
        subst h2
        intro hcon
        simp only at hcon
        exact hx_notin (hcon ▸ List.mem_map_of_mem nameOf hy)

theorem dictOfItems_nodup (items : List FSTree) (h : namesUnique (items.map nameOf) = true) :
    dictOfItems items = items.map (fun x => (nameOf x, x)) := by
  have := foldl_dictInsert items [] h (by simp)
  simpa [dictOfItems] using this

theorem specFirstMismatch_self (skip : Bool) (p : String) (d : Bool) (s : FileStat) (m : Bool) :
    specFirstMismatch skip p d s s m m = [] := by
  cases skip <;> cases m <;>
    simp [specFirstMismatch, primaryChecks, modeChecks, firstDiff]

theorem fieldChain_self (skip : Bool) (p : String) (d : Bool) (s : FileStat) (m : Bool)
    (chs : List (String × String)) : fieldChain skip p d s s m m chs = chs := by
  rw [fieldChain_spec, specFirstMismatch_self]
  simp

theorem afterLinksGo_self (rc : FSTree → FSTree → String → String → St → Option St)
    (x : FSTree) (sa : FileStat) (qa qb : String) (recursive : Bool) (st : St)
    (hrc : ∀ s : St, ∃ s2, rc x x (childPath qa (nameOf x)) (childPath qb (nameOf x)) s = some s2 ∧
      s2.changes = s.changes ∧ s2.processed + s.total = s2.total + s.processed) :
    ∃ st2, afterLinksGo rc x x sa sa qa qb recursive st = some st2 ∧
      st2.changes = st.changes ∧ st2.processed + st.total = st2.total + st.processed := by
  by_cases hd : S_ISDIR sa.st_mode = true
  · cases hr : recursive
    · refine ⟨st, ?_, rfl, Nat.add_comm _ _⟩
      simp [afterLinksGo, hd, fieldChain_self]
    · obtain ⟨s2, hs2, hch, hbal⟩ := hrc st
      refine ⟨s2, ?_, hch, hbal⟩
      simp [afterLinksGo, hd, hs2, fieldChain_self]
  · refine ⟨st, ?_, rfl, Nat.add_comm _ _⟩
    simp [afterLinksGo, hd, fieldChain_self]

theorem processOneGo_self (rc : FSTree → FSTree → String → String → St → Option St)
    (x : FSTree) (qa qb : String) (recursive fol : Bool) (st : St)
    (hrc : ∀ s : St, ∃ s2, rc x x (childPath qa (nameOf x)) (childPath qb (nameOf x)) s = some s2 ∧
      s2.changes = s.changes ∧ s2.processed + s.total = s2.total + s.processed) :
    ∃ st2, processOneGo rc x x qa qb recursive fol st = some st2 ∧
      st2.changes = st.changes ∧ st2.processed + st.total = st2.total + st.processed := by
  by_cases hl : S_ISLNK (lstatOf x).st_mode = true
  · cases hf : fol
    · have h := afterLinksGo_self rc x (lstatOf x) qa qb recursive st hrc
      simpa [processOneGo, hl, hf] using h
    · by_cases hs : startsWithStr (resolvedPathOf x) qa = true
      · have h := afterLinksGo_self rc x (rstatOf x) qa qb recursive st hrc
        simpa [processOneGo, hl, hf, hs] using h
      · have h := afterLinksGo_self rc x (lstatOf x) qa qb recursive
          { st with notices := st.notices ++ [refuseMsg (childPath qa (nameOf x))] } hrc
        simpa [processOneGo, hl, hf, hs] using h
  · have h := afterLinksGo_self rc x (lstatOf x) qa qb recursive st hrc
    simpa [processOneGo, hl] using h

theorem processItemsGo_self (rc : FSTree → FSTree → String → String → St → Option St)
    (qa qb : String) (recursive fol : Bool) :
    ∀ (items : List FSTree) (st : St),
    namesUnique (items.map nameOf) = true →
    (∀ x ∈ items, ∀ s : St, ∃ s2, rc x x (childPath qa (nameOf x)) (childPath qb (nameOf x)) s = some s2 ∧
      s2.changes = s.changes ∧ s2.processed + s.total = s2.total + s.processed) →
    ∃ st2, processItemsGo rc qa qb recursive fol items (items.map (fun x => (nameOf x, x))) st =
        some (st2, []) ∧
      st2.changes = st.changes ∧ st2.processed + st.total = st2.total + st.processed + items.length := by
  intro items
  induction items with
  | nil =>
    intro st _ _
    exact ⟨st, rfl, rfl, by simp [Nat.add_comm]⟩
  | cons x rest ih =>
    intro st hu hrc
    have hu2 : namesUnique ((x :: rest).map nameOf) = true := hu
    simp only [List.map_cons, namesUnique, Bool.and_eq_true] at hu2
    obtain ⟨sm, hsm, hch, hbal⟩ := processOneGo_self rc x qa qb recursive fol
      { st with processed := st.processed + 1 } (fun s => hrc x (List.mem_cons_self x rest) s)
    obtain ⟨st2, h2, hch2, hbal2⟩ := ih sm hu2.2 (fun y hy s => hrc y (List.mem_cons_of_mem _ hy) s)
    have hfind : ((x :: rest).map (fun y => (nameOf y, y))).find? (fun p => p.1 == nameOf x) =
        some (nameOf x, x) := by
      simp [List.find?_cons_of_pos]
    have herase : ((x :: rest).map (fun y => (nameOf y, y))).eraseP (fun p => p.1 == nameOf x) =
        rest.map (fun y => (nameOf y, y)) := by
      simp [List.eraseP_cons_of_pos]
    have hstep : processItemsGo rc qa qb recursive fol (x :: rest)
        ((x :: rest).map (fun y => (nameOf y, y))) st = some (st2, []) := by
      simp only [processItemsGo, hfind, herase, hsm]
      exact h2
    refine ⟨st2, hstep, by rw [hch2, hch], ?_⟩
    have hb1 : sm.processed + st.total = sm.total + (st.processed + 1) := hbal
    rw [List.length_cons]
    omega

theorem cmp_dirF_self : ∀ (fuel : Nat) (t : FSTree) (pa pb : String) (r e f : Bool) (st : St),
    wfB fuel t = true →
    ∃ st2, cmp_dirF fuel t t pa pb r e f st = some st2 ∧
      st2.changes = st.changes ∧ st2.processed + st.total = st2.total + st.processed := by
  intro fuel
  induction fuel with
  | zero => intro t pa pb r e f st h; simp [wfB] at h
  | succ n ih =>
    intro t pa pb r e f st hwf
    have hwf2 : wfB (n + 1) t = true := hwf
    simp only [wfB, Bool.and_eq_true, List.all_eq_true] at hwf2
    obtain ⟨hnu, hall⟩ := hwf2
    cases hex : listingOf t with
    | some exn =>
      refine ⟨st, ?_, rfl, Nat.add_comm _ _⟩
      simp [cmp_dirF, hex, dictOfItems, processItemsGo]
    | none =>
      have hnu2 : namesUnique ((sortByName (childrenOf t)).map nameOf) = true :=
        sortByName_namesUnique _ hnu
      have hdict : dictOfItems (sortByName (childrenOf t)) =
          (sortByName (childrenOf t)).map (fun x => (nameOf x, x)) := dictOfItems_nodup _ hnu2
      have hrc : ∀ x ∈ sortByName (childrenOf t), ∀ s : St, ∃ s2,
          (fun a b pa2 pb2 s0 => cmp_dirF n a b pa2 pb2 r e f s0) x x
            (childPath pa (nameOf x)) (childPath pb (nameOf x)) s = some s2 ∧
          s2.changes = s.changes ∧ s2.processed + s.total = s2.total + s.processed := by
        intro x hx s
        have hxm : x ∈ childrenOf t := ((sortByName_perm (childrenOf t)).mem_iff).mp hx
        exact ih x (childPath pa (nameOf x)) (childPath pb (nameOf x)) r e f s (hall x hxm)
      obtain ⟨st2, hloop, hch, hbal⟩ := processItemsGo_self
        (fun a b pa2 pb2 s0 => cmp_dirF n a b pa2 pb2 r e f s0) pa pb r f
        (sortByName (childrenOf t))
        { st with total := st.total + (sortByName (childrenOf t)).length } hnu2 hrc
      have hfin : cmp_dirF (n + 1) t t pa pb r e f st = some st2 := by
        simp only [cmp_dirF, hex]
        rw [hdict, hloop]
        simp
      refine ⟨st2, hfin, hch, ?_⟩
      have hb : st2.processed + (st.total + (sortByName (childrenOf t)).length) =
          st2.total + st.processed + (sortByName (childrenOf t)).length := hbal
      omega

theorem afterLinksGo_isSome (rc : FSTree → FSTree → String → String → St → Option St)
    (x y : FSTree) (sa sb : FileStat) (qa qb : String) (r : Bool) (s : St)
    (hrc : ∀ qa2 qb2 s2, (rc x y qa2 qb2 s2).isSome = true) :
    (afterLinksGo rc x y sa sb qa qb r s).isSome = true := by
  simp only [afterLinksGo]
  split
  · split
    · simp
    · split
      next heq =>
        exfalso
        split at heq
        · have hh := hrc (childPath qa (nameOf x)) (childPath qb (nameOf y)) s
          rw [heq] at hh
          simp at hh
        · simp at heq
      next s1 heq => simp
  · simp

theorem processOneGo_isSome (rc : FSTree → FSTree → String → String → St → Option St)
    (x y : FSTree) (qa qb : String) (r f : Bool) (s : St)
    (hrc : ∀ qa2 qb2 s2, (rc x y qa2 qb2 s2).isSome = true) :
    (processOneGo rc x y qa qb r f s).isSome = true := by
  simp only [processOneGo]
  split
  · split
    · simp
    · split
      · split
        · exact afterLinksGo_isSome rc x y _ _ qa qb r _ hrc
        · exact afterLinksGo_isSome rc x y _ _ qa qb r _ hrc
      · exact afterLinksGo_isSome rc x y _ _ qa qb r _ hrc
  · exact afterLinksGo_isSome rc x y _ _ qa qb r _ hrc

theorem processItemsGo_isSome (rc : FSTree → FSTree → String → String → St → Option St)
    (qa qb : String) (r f : Bool) :
    ∀ (items : List FSTree) (nb : List (String × FSTree)) (s : St),
    (∀ x ∈ items, ∀ y qa2 qb2 s2, (rc x y qa2 qb2 s2).isSome = true) →
    (processItemsGo rc qa qb r f items nb s).isSome = true := by
  intro items
  induction items with
  | nil => intro nb s _; simp [processItemsGo]
  | cons x rest ih =>
    intro nb s hrc
    simp only [processItemsGo]
    split
    · exact ih _ _ (fun y hy => hrc y (List.mem_cons_of_mem _ hy))
    next pr hfind =>
      split
      next heq =>
        exfalso
        have hh := processOneGo_isSome rc x pr.2 qa qb r f
          { s with processed := s.processed + 1 }
          (fun qa2 qb2 s2 => hrc x (List.mem_cons_self x rest) pr.2 qa2 qb2 s2)
        rw [heq] at hh
        simp at hh
      next s1 heq => exact ih _ _ (fun y hy => hrc y (List.mem_cons_of_mem _ hy))

theorem sizeOf_lt_of_mem_children {x t : FSTree} (h : x ∈ childrenOf t) : sizeOf x < sizeOf t := by
  cases t with
  | node n l r p m d e cs =>
    simp only [childrenOf] at h
    have h1 := List.sizeOf_lt_of_mem h
    simp only [FSTree.node.sizeOf_spec]
    omega

theorem cmp_dirF_isSome : ∀ (fuel : Nat) (a : FSTree), sizeOf a ≤ fuel →
    ∀ (b : FSTree) (pa pb : String) (r e : Bool) (st : St),
    (cmp_dirF fuel a b pa pb r e false st).isSome = true := by
  intro fuel
  induction fuel with
  | zero =>
    intro a ha
    exfalso
    cases a with
    | node n l r p m d e cs =>
      simp only [FSTree.node.sizeOf_spec] at ha
      omega
  | succ n ih =>
    intro a ha b pa pb r e st
    simp only [cmp_dirF]
    split
    · simp
    · split
      next heq =>
        exfalso
        have hl := processItemsGo_isSome
          (fun x y px py s => cmp_dirF n x y px py r e false s) pa pb r false
          (match listingOf a with
            | none => sortByName (childrenOf a)
            | some _ => [])
          (dictOfItems (match listingOf b with
            | none => sortByName (childrenOf b)
            | some _ => []))
          { st with total := st.total + (match listingOf a with
              | none => sortByName (childrenOf a)
              | some _ => []).length } ?_
        · rw [heq] at hl
          simp at hl
        · intro x hx y qa2 qb2 s2
          cases hlx : listingOf a with
          | none =>
            rw [hlx] at hx
            have hxm : x ∈ childrenOf a := ((sortByName_perm (childrenOf a)).mem_iff).mp hx
            have hsz : sizeOf x < sizeOf a := sizeOf_lt_of_mem_children hxm
            exact ih x (by omega) y qa2 qb2 r e s2
          | some ex =>
            rw [hlx] at hx
            simp at hx
      next pr heq => simp



/-- C1: for every pair of identical directory trees (same entry names, types,
sizes, owners, group ids and modification times at every level, embodied by
running cmp_dir on the same tree twice), any flag combination yields an empty
Difference sequence, and at completion the counters satisfy
processed = total.  The tree is required to be well-formed (distinct names in
every listing, depth within fuel), as every real directory tree is. -/
theorem claim_C1_identical (fuel : Nat) (t : FSTree) (pa pb : String)
    (recursive external follow_symlinks : Bool) (h : wfB fuel t = true) :
    ∃ st2, cmp_dirF fuel t t pa pb recursive external follow_symlinks st0 = some st2 ∧
      st2.changes = [] ∧ st2.processed = st2.total := by
  obtain ⟨st2, h1, h2, h3⟩ := cmp_dirF_self fuel t pa pb recursive external follow_symlinks st0 h
  have h4 : st2.processed + 0 = st2.total + 0 := h3
  exact ⟨st2, h1, h2, by omega⟩

/-- Witness for C1 at a two-level concrete tree. -/
theorem claim_C1_witness :
    wfB 3 (dirNode "r" [fileNode "x" 3, dirNode "d" [fileNode "y" 4]]) = true ∧
    ∃ st2, cmp_dirF 3 (dirNode "r" [fileNode "x" 3, dirNode "d" [fileNode "y" 4]])
        (dirNode "r" [fileNode "x" 3, dirNode "d" [fileNode "y" 4]]) "/p" "/q" true false true st0 =
        some st2 ∧ st2.changes = [] ∧ st2.processed = st2.total :=
  ⟨by decide, claim_C1_identical 3 _ "/p" "/q" true false true (by decide)⟩

/-- C2 counterexample: a symlink at depth one whose resolved path /a/other
stays inside the original root /a (first conjunct) is nevertheless refused:
the run emits the safety notice and compares unresolved metadata (the resolved
uids 5 and 0 differ, yet no stat.st_uid Difference appears and notices is
nonempty), because the code checks the resolved path against the directory
currently being compared (/a/s), not the original root. -/
theorem claim_C2_counterexample :
    startsWithStr (resolvedPathOf (linkNode "L" "/a/other" 0 5)) "/a" = true ∧
    cmp_dirF 3 (dirNode "ra" [dirNode "s" [linkNode "L" "/a/other" 0 5]])
        (dirNode "rb" [dirNode "s" [linkNode "L" "/b/other" 0 0]]) "/a" "/b" true false true st0 =
      some ⟨[], 2, 2, [refuseMsg "/a/s/L"]⟩ := by
  exact ⟨by decide, by decide⟩

/-- Witness for the amended C2 at a concrete symlink pair. -/
theorem claim_C2_witness :
    processOneGo (fun _ _ _ _ s => some s) (linkNode "L" "/a/other" 0 5)
        (linkNode "L" "/b/other" 0 0) "/a/s" "/b/s" true true st0 =
      (if startsWithStr (resolvedPathOf (linkNode "L" "/a/other" 0 5)) "/a/s" then
        afterLinksGo (fun _ _ _ _ s => some s) (linkNode "L" "/a/other" 0 5)
          (linkNode "L" "/b/other" 0 0) (rstatOf (linkNode "L" "/a/other" 0 5))
          (rstatOf (linkNode "L" "/b/other" 0 0)) "/a/s" "/b/s" true st0
      else
        afterLinksGo (fun _ _ _ _ s => some s) (linkNode "L" "/a/other" 0 5)
          (linkNode "L" "/b/other" 0 0) (lstatOf (linkNode "L" "/a/other" 0 5))
          (lstatOf (linkNode "L" "/b/other" 0 0)) "/a/s" "/b/s" true
          { st0 with notices := st0.notices ++
            [refuseMsg (childPath "/a/s" (nameOf (linkNode "L" "/a/other" 0 5)))] }) :=
  claim_C2_theorem (fun _ _ _ _ s => some s) (linkNode "L" "/a/other" 0 5)
    (linkNode "L" "/b/other" 0 0) "/a/s" "/b/s" true st0 (by decide) (by decide)

/-- C3 counterexample: when both listings fail with the identical
classification PermissionError, the run records no Difference at all (the
result state still has an empty changes list), where the claim demands exactly
one record with reason PermissionError & PermissionError. -/
theorem claim_C3_counterexample :
    cmp_dirF 1 (failNode "r" "PermissionError") (failNode "r" "PermissionError")
        "/a" "/b" true false false st0 = some st0 ∧ st0.changes = [] := by
  exact ⟨by decide, rfl⟩

/-- Witness for the amended C3: one side fails with PermissionError, the other
lists fine, producing the single terminal record PermissionError & None. -/
theorem claim_C3_witness :
    listingOf (failNode "r" "PermissionError") ≠ listingOf (dirNode "rb" []) ∧
    cmp_dirF 1 (failNode "r" "PermissionError") (dirNode "rb" []) "/a" "/b" true false false st0 =
      some { st0 with changes := append_change st0.changes "/a" (isDirROf (failNode "r" "PermissionError")) (optExStr (listingOf (failNode "r" "PermissionError")) ++ " & " ++ optExStr (listingOf (dirNode "rb" []))) } :=
  ⟨by decide, (claim_C3_theorem 0 (failNode "r" "PermissionError") (dirNode "rb" [])
    "/a" "/b" true false false st0).2 (by decide)⟩

/-- C7: every Difference except the missing pass is an ordered (path, reason)
record, and A-only entries yield exactly one deleted record with the path
first; but the missing pass of line 211 appends the tuple reversed, as
(missing, path): the first run evaluates the code on an empty tree A against a
tree B containing x, the second run the mirror image. -/
theorem claim_C7_theorem :
    cmp_dirF 1 (dirNode "ra" []) (dirNode "rb" [fileNode "x" 1]) "/a" "/b" false false false st0 =
      some ⟨[("missing", "/b/x")], 0, 0, []⟩ ∧
    cmp_dirF 1 (dirNode "rb" [fileNode "x" 1]) (dirNode "ra" []) "/b" "/a" false false false st0 =
      some ⟨[("/b/x", "deleted")], 1, 1, []⟩ := by
  exact ⟨by decide, by decide⟩

/-- C5 counterexample: side A holds a regular file x of size 10 and side B a
directory of the same name (size 4096); a stat.st_size Difference is recorded
for the pair even though one side is a directory, refuting the claim that the
size field is never inspected when either side is a directory. -/
theorem claim_C5_counterexample :
    cmp_dirF 2 (dirNode "ra" [fileNode "x" 10]) (dirNode "rb" [dirNode "x" []])
        "/a" "/b" true false false st0 =
      some ⟨[("/a/x", "stat.st_size(10|4096)")], 1, 1, []⟩ := by
  decide

/-- Witness for the amended C5 at a concrete file-versus-directory pair. -/
theorem claim_C5_witness :
    S_ISDIR (regStat 10 0 0 100).st_mode = false ∧ ((10 : Int) ≠ (4096 : Int)) ∧
    afterLinksGo (fun _ _ _ _ s => some s) (fileNode "x" 10) (dirNode "x" [])
        (regStat 10 0 0 100) (dirStat 4096) "/a" "/b" true st0 =
      some { st0 with changes := append_change st0.changes (childPath "/a" (nameOf (fileNode "x" 10))) (isDirROf (fileNode "x" 10)) ("stat.st_size(" ++ pyStr (PyVal.int (regStat 10 0 0 100).st_size) ++ "|" ++ pyStr (PyVal.int (dirStat 4096).st_size) ++ ")") } :=
  ⟨by decide, by decide,
    (claim_C5_theorem (fun _ _ _ _ s => some s) (fileNode "x" 10) (dirNode "x" [])
      (regStat 10 0 0 100) (dirStat 4096) "/a" "/b" true st0 0 0).2 (by decide) (by decide)⟩

/-- C6 counterexample: side A holds a regular file and side B a symlink of the
same name; the run records only the st_mode mismatch, never an is_symlink
Difference, refuting the claim that a one-sided symlink on either side yields
an is_symlink record. -/
theorem claim_C6_counterexample :
    cmp_dirF 2 (dirNode "ra" [fileNode "x" 9]) (dirNode "rb" [linkNode "x" "" 0 0])
        "/a" "/b" true false false st0 =
      some ⟨[("/a/x", "stat.st_mode(33188|41471)")], 1, 1, []⟩ ∧
    ∀ pr ∈ [("/a/x", "stat.st_mode(33188|41471)")], pr.2 ≠ "is_symlink" := by
  exact ⟨by decide, by decide⟩

/-- Witness for the amended C6 at a concrete symlink-versus-file pair. -/
theorem claim_C6_witness :
    processOneGo (fun _ _ _ _ s => some s) (linkNode "L" "/t" 0 0) (fileNode "x" 9)
        "/a" "/b" false false st0 =
      some { st0 with changes := append_change st0.changes (childPath "/a" (nameOf (linkNode "L" "/t" 0 0))) (isDirROf (linkNode "L" "/t" 0 0)) "is_symlink" } :=
  (claim_C6_theorem (fun _ _ _ _ s => some s) (linkNode "L" "/t" 0 0) (fileNode "x" 9)
    "/a" "/b" false false st0).1 (by decide) (by decide)

/-- C8 counterexample: both sides hold a matched mount-point directory m, the
cross-mounts option is off and recursive is on; the walk nevertheless
descends into the mount pair (the file f below it is processed, its size
difference recorded and both counters reach 2), refuting the claim that
descent into matched mount points happens if and only if cross-mounts is set. -/
theorem claim_C8_counterexample :
    cmp_dirF 3 (dirNode "ra" [mountNode "m" [fileNode "f" 1]])
        (dirNode "rb" [mountNode "m" [fileNode "f" 2]]) "/a" "/b" true false false st0 =
      some ⟨[("/a/m/f", "stat.st_size(1|2)")], 2, 2, []⟩ := by
  decide

/-- C8 amended: when side A is a mount point, side B is not, and the earlier
precedence fields (size, uid, gid, mtime) agree, exactly the is_mount record
is appended and every later check is skipped; and the cross-mounts (external)
flag has no effect whatsoever on the walk, its commented-out recursion being
gone, so descent into matched mount directories follows the ordinary
recursive-flag rule. -/
theorem claim_C8_theorem :
    (∀ (skip_size : Bool) (p : String) (d : Bool) (sa sb : FileStat)
        (chs : List (String × String)),
      sa.st_size = sb.st_size → sa.st_uid = sb.st_uid → sa.st_gid = sb.st_gid →
      sa.st_mtime = sb.st_mtime →
      fieldChain skip_size p d sa sb true false chs = append_change chs p d "is_mount") ∧
    (∀ (fuel : Nat) (a b : FSTree) (pa pb : String) (recursive e1 e2 follow_symlinks : Bool)
        (st : St),
      cmp_dirF fuel a b pa pb recursive e1 follow_symlinks st =
        cmp_dirF fuel a b pa pb recursive e2 follow_symlinks st) := by
  constructor
  · intro skip p d sa sb chs h1 h2 h3 h4
    rw [fieldChain_spec]
    cases skip <;>
      simp [specFirstMismatch, primaryChecks, firstDiff, h1, h2, h3, h4, append_change]
  · exact cmp_dirF_external_irrel

/-- Witness for the amended C8 at concrete equal directory stats. -/
theorem claim_C8_witness :
    fieldChain false "/a/m" true (dirStat 4096) (dirStat 4096) true false [] =
      append_change [] "/a/m" true "is_mount" :=
  claim_C8_theorem.1 false "/a/m" true (dirStat 4096) (dirStat 4096) [] rfl rfl rfl rfl

/-- C9: over any successful walk the counters are monotonically non-decreasing
and exactly balanced (the walk adds the same amount to processed and total),
so processed stays at most total whenever it starts so, and equals total at
normal completion from an equal start; and within one directory level, after
total has been advanced by the side-A entry count, every loop suffix keeps
processed at most total. -/
theorem claim_C9_theorem :
    (∀ (fuel : Nat) (a b : FSTree) (pa pb : String) (r e f : Bool) (st st2 : St),
      cmp_dirF fuel a b pa pb r e f st = some st2 →
      st.processed ≤ st2.processed ∧ st.total ≤ st2.total ∧
      st2.processed + st.total = st2.total + st.processed ∧
      (st.processed ≤ st.total → st2.processed ≤ st2.total) ∧
      (st.processed = st.total → st2.processed = st2.total)) ∧
    (∀ rc : FSTree → FSTree → String → String → St → Option St,
      (∀ x y qa qb s s2, rc x y qa qb s = some s2 →
        s.processed ≤ s2.processed ∧ s.total ≤ s2.total ∧
        s2.processed + s.total = s2.total + s.processed) →
      ∀ (pa pb : String) (r f : Bool) (items : List FSTree)
        (nb : List (String × FSTree)) (s s2 : St) (nb2 : List (String × FSTree)),
      processItemsGo rc pa pb r f items nb s = some (s2, nb2) →
      s.processed + items.length ≤ s.total → s2.processed ≤ s2.total) := by
  constructor
  · intro fuel a b pa pb r e f st st2 h
    obtain ⟨h1, h2, h3⟩ := cmp_dirF_counters fuel a b pa pb r e f st st2 h
    exact ⟨h1, h2, h3, fun hle => by omega, fun heq => by omega⟩
  · intro rc hrc pa pb r f items nb s s2 nb2 h hslack
    obtain ⟨h1, h2, h3⟩ := processItemsGo_counters rc hrc pa pb r f items nb s s2 nb2 h
    omega

/-- Witness for C9 on a concrete successful run. -/
theorem claim_C9_witness :
    (0 : Nat) ≤ 1 ∧ (0 : Nat) ≤ 1 ∧ 1 + 0 = 1 + 0 ∧
    ((0 : Nat) ≤ 0 → (1 : Nat) ≤ 1) ∧ ((0 : Nat) = 0 → (1 : Nat) = 1) :=
  claim_C9_theorem.1 2 (dirNode "ra" [fileNode "x" 10]) (dirNode "rb" [fileNode "x" 12])
    "/a" "/b" true false false st0 ⟨[("/a/x", "stat.st_size(10|12)")], 1, 1, []⟩ (by decide)

/-- C10: with follow-symlinks disabled, cmp_dir terminates on every finite
directory tree: the walk only recurses into listed children, each a strictly
smaller subtree, so fuel equal to the size of the side-A tree always suffices
and the run never aborts. -/
theorem claim_C10_theorem (a b : FSTree) (pa pb : String) (recursive external : Bool)
    (st : St) :
    (cmp_dirF (sizeOf a) a b pa pb recursive external false st).isSome = true :=
  cmp_dirF_isSome (sizeOf a) a (Nat.le_refl _) b pa pb recursive external st


end Dircmp
